import Mathlib

/-!
Verification of the ViewerBot task orchestrator (`src/backend/app.py`,
`src/try_fast.py`) against its natural-language specification.

The development shallowly embeds the Python source:
* the request validation pipeline (`BotStartRequest` validators, lines 30-54)
  as pure `Except`-valued functions;
* the task-id generation of `start_bot` (line 288, `f"task_{int(time.time())}"`)
  with time measured in milliseconds, so `int(time.time())` is `nowMs / 1000`;
* the sweeper `cleanup_resources` (lines 343-375) as a pure function over the
  `active_drivers` association list;
* the per-task lifecycle (`ViewerBot.run`, `ViewerBot.worker`, `stop_bot`,
  `get_status`) as an executable labelled transition system `step`: every
  Python statement that can interleave with another thread is a separate
  action, in particular a worker's counter increment (under `counter_lock`)
  and its progress publish (outside the lock) are distinct actions, and the
  finalizer's read of the stop flag (line 241) and its terminal status write
  (lines 242-254) are distinct actions.
-/

namespace ViewerBot

/-! ### Request validation (`BotStartRequest`, app.py lines 30-54) -/

/-- ASCII whitespace stripped by Python's `str.strip()` (the unicode
whitespace code points are not needed by any claim and are omitted). -/
def isPyWhitespace (c : Char) : Bool :=
  c = ' ' || c = '\t' || c = '\n' || c = '\x0d' || c = '\x0b' || c = '\x0c'

/-- Python `str.strip()` restricted to ASCII whitespace. -/
def pyStrip (s : String) : String :=
  String.mk (((s.toList.dropWhile isPyWhitespace).reverse.dropWhile isPyWhitespace).reverse)

/-- Whether the first list is an initial segment of the second. -/
def charsLead : List Char → List Char → Bool
  | [], _ => true
  | _ :: _, [] => false
  | c :: cs, d :: ds => c = d && charsLead cs ds

/-- Python `v.startswith(pre)`. -/
def pyStartsWith (v pre : String) : Bool :=
  charsLead pre.toList v.toList

/-- `validate_url` (app.py lines 35-42): strip, reject empty, prefix
`https://` when no scheme is present. -/
def validateUrl (v : String) : Except String String :=
  let v := pyStrip v
  if v = "" then .error "URL is required"
  else if pyStartsWith v "http://" || pyStartsWith v "https://" then .ok v
  else .ok ("https://" ++ v)

/-- `validate_iterations` (app.py lines 44-48). -/
def validateIterations (v : Int) : Except String Int :=
  if v ≤ 0 ∨ v > 10000 then .error "Iterations must be between 1 and 10000"
  else .ok v

/-- `validate_parallel_browsers` (app.py lines 50-54). -/
def validateParallelBrowsers (v : Int) : Except String Int :=
  if v < 1 ∨ v > 10 then .error "Parallel browsers must be between 1 and 10"
  else .ok v

/-- A raw `POST /api/start` body before pydantic validation. -/
structure RawStartRequest where
  url : String
  iterations : Int
  parallel_browsers : Int
  deriving DecidableEq, Repr

/-- A validated `BotStartRequest` (fields hold the validators' outputs,
as pydantic replaces each field with its validator's return value). -/
structure BotStartRequest where
  url : String
  iterations : Int
  parallel_browsers : Int
  deriving DecidableEq, Repr

/-- Running the three pydantic validators in order; any failure rejects the
request before the `start_bot` handler body runs. -/
def parseStartRequest (r : RawStartRequest) : Except String BotStartRequest :=
  match validateUrl r.url with
  | .error e => .error e
  | .ok u =>
    match validateIterations r.iterations with
    | .error e => .error e
    | .ok it =>
      match validateParallelBrowsers r.parallel_browsers with
      | .error e => .error e
      | .ok p => .ok ⟨u, it, p⟩

/-- `BotStartResponse` (app.py lines 56-61). -/
structure BotStartResponse where
  taskId : String
  message : String
  url : String
  iterations : Int
  parallel_browsers : Int
  deriving DecidableEq, Repr

/-- Task-id generation in `start_bot` (app.py line 288):
`f"task_{int(time.time())}"`, with the wall clock in milliseconds so that
`int(time.time())` is `nowMs / 1000`. -/
def genTaskId (nowMs : Nat) : String :=
  "task_" ++ toString (nowMs / 1000)

def isError {α : Type} : Except String α → Bool
  | .error _ => true
  | .ok _ => false

deriving instance DecidableEq for Except

/-! ### Iteration partitioning (`ViewerBot.run`, app.py lines 225-233;
`try_fast.py` lines 67-75) -/

/-- The share handed to worker `i`:
`iterations_per_worker + (1 if i < remainder else 0)`. -/
def assignIters (total n i : Nat) : Nat :=
  total / n + (if i < total % n then 1 else 0)

/-! ### Sweeper (`cleanup_resources`, app.py lines 343-375) -/

/-- One tracked browser driver; `quitOk` tells whether `driver.quit()`
succeeds or raises (with message `errMsg`). -/
structure Driver where
  quitOk : Bool
  errMsg : String
  deriving DecidableEq, Repr

/-- An `active_drivers` entry: the current list format, or the legacy single
driver handled by the `isinstance` else-branch (app.py lines 359-367). -/
inductive DriverEntry
  | multi (ds : List Driver)
  | single (d : Driver)
  deriving DecidableEq, Repr

/-- Closing every driver of one entry: count of successful quits and the
error strings `f"Task {task_id}: {e}"` collected for failures. -/
def cleanupEntry (taskId : String) : DriverEntry → Nat × List String
  | .multi ds =>
      ds.foldl
        (fun acc d =>
          if d.quitOk then (acc.1 + 1, acc.2)
          else (acc.1, acc.2 ++ ["Task " ++ taskId ++ ": " ++ d.errMsg]))
        (0, [])
  | .single d =>
      if d.quitOk then (1, []) else (0, ["Task " ++ taskId ++ ": " ++ d.errMsg])

/-- `cleanup_resources`: iterate every task's entry, quit each driver, delete
the entry; returns `(closed_count, errors, remaining active_drivers)`. -/
def cleanupResources (activeDrivers : List (String × DriverEntry)) :
    Nat × List String × List (String × DriverEntry) :=
  let r := activeDrivers.foldl
    (fun acc td =>
      let e := cleanupEntry td.1 td.2
      (acc.1 + e.1, acc.2 ++ e.2))
    ((0 : Nat), ([] : List String))
  (r.1, r.2, [])

/-! ### The per-task lifecycle transition system -/

/-- The status strings stored in `running_tasks[task_id]['status']`. -/
inductive Status
  | running
  | stopping
  | stopped
  | completed
  | error
  deriving DecidableEq, Repr

/-- One whole `running_tasks[task_id]` dict value (`TaskStatus` model,
app.py lines 63-67). -/
structure TaskSnapshot where
  status : Status
  current : Nat
  total : Nat
  message : String
  deriving DecidableEq, Repr

/-- The thread-local state of one worker (`ViewerBot.worker`).
`pending` holds a counter value captured under `counter_lock` (app.py
lines 185-187) that the worker has not yet published (lines 190-196);
`inVisit` is true between the stop-flag check at the top of the loop and
the counter increment, i.e. while `driver.get`/`sleep` are in flight. -/
structure WorkerSt where
  remaining : Nat
  pending : Option Nat
  inVisit : Bool
  done : Bool
  failed : Bool
  deriving DecidableEq, Repr

/-- The shared state relevant to one task: its `running_tasks` entry
(`registry`, `none` = key absent = 404), the shared iteration counter
`self.current_iteration`, the `task_stop_flags` entry, the workers, the
finalizer's private read of the stop flag (app.py line 241), whether the
terminal status has been written, and whether the spawned `bot.run` thread
has begun (`started` = the registration at lines 213-220 has executed). -/
structure SysState where
  registry : Option TaskSnapshot
  counter : Nat
  stopFlag : Bool
  workers : List WorkerSt
  total : Nat
  flagRead : Option Bool
  finalized : Bool
  started : Bool
  deriving DecidableEq, Repr

def visitMsg (c t : Nat) : String :=
  "Visit " ++ toString c ++ "/" ++ toString t

def startingMsg (n : Nat) : String :=
  "Starting " ++ toString n ++ " browsers..."

def completedMsg (t : Nat) : String :=
  "✅ Completed all " ++ toString t ++ " visits!"

def stoppedMsg : String := "Task stopped by user"

def stoppingMsg : String := "Stopping all browsers..."

/-- One interleavable atomic action of the system. -/
inductive Action
  | register
  | beginVisit (i : Nat)
  | endVisit (i : Nat)
  | publishProgress (i : Nat)
  | exitStop (i : Nat)
  | exitDone (i : Nat)
  | fail (i : Nat)
  | stopTask
  | finalizeRead
  | finalizeWrite
  deriving DecidableEq, Repr

/-- The small-step semantics. `none` means the action's enabling condition
does not hold in `s` (that interleaving cannot occur).

* `register`: `bot.run` begins — `task_stop_flags[id] = False` and the
  initial `running_tasks` entry (app.py lines 213-220).
* `beginVisit i`: worker `i` passes the stop-flag check at the top of its
  loop (lines 166-168) and starts `driver.get` (line 171).
* `endVisit i`: the visit returns and the worker increments the shared
  counter under `counter_lock`, capturing its value (lines 185-187); the
  captured value is due for publication iff `current % 10 == 0 or
  current == self.iterations` (line 190).
* `publishProgress i`: the worker stores its captured value — outside the
  lock — replacing the whole `running_tasks` entry with status `running`
  (lines 191-196).
* `exitStop i`: the worker observes the stop flag and breaks (lines 166-168).
* `exitDone i`: the worker's `for` loop is exhausted and it returns.
* `fail i`: an exception (driver creation at line 154, or `driver.get`,
  including a force-closed session) reaches the worker's `except` (lines
  200-202); the worker returns an error string, contributing no further
  iterations.
* `stopTask`: the effective branch of `stop_bot` (lines 322-334): only when
  the stored status is `running`, set the stop flag and overwrite the
  status/message fields with `stopping`.
* `finalizeRead`: `bot.run` has joined all workers and reads
  `task_stop_flags.get(task_id, False)` (line 241).
* `finalizeWrite`: `bot.run` writes the terminal entry (lines 242-254):
  `stopped` with `current = self.current_iteration` if the read flag was
  true, else `completed` with `current = self.iterations`. -/
def step (s : SysState) : Action → Option SysState
  | .register =>
      if s.started then none
      else some { s with
        started := true
        stopFlag := false
        registry := some ⟨.running, 0, s.total, startingMsg s.workers.length⟩ }
  | .beginVisit i =>
      match s.workers[i]? with
      | none => none
      | some w =>
        if s.started ∧ w.done = false ∧ w.pending = none ∧ w.inVisit = false
            ∧ 0 < w.remaining ∧ s.stopFlag = false then
          some { s with workers := s.workers.set i { w with inVisit := true } }
        else none
  | .endVisit i =>
      match s.workers[i]? with
      | none => none
      | some w =>
        if w.inVisit = true then
          let c := s.counter + 1
          some { s with
            counter := c
            workers := s.workers.set i
              { w with
                remaining := w.remaining - 1
                inVisit := false
                pending := if c % 10 = 0 ∨ c = s.total then some c else none } }
        else none
  | .publishProgress i =>
      match s.workers[i]? with
      | none => none
      | some w =>
        match w.pending with
        | none => none
        | some v =>
          some { s with
            registry := some ⟨.running, v, s.total, visitMsg v s.total⟩
            workers := s.workers.set i { w with pending := none } }
  | .exitStop i =>
      match s.workers[i]? with
      | none => none
      | some w =>
        if s.started ∧ w.done = false ∧ w.pending = none ∧ w.inVisit = false
            ∧ s.stopFlag = true then
          some { s with workers := s.workers.set i { w with done := true } }
        else none
  | .exitDone i =>
      match s.workers[i]? with
      | none => none
      | some w =>
        if s.started ∧ w.done = false ∧ w.pending = none ∧ w.inVisit = false
            ∧ w.remaining = 0 then
          some { s with workers := s.workers.set i { w with done := true } }
        else none
  | .fail i =>
      match s.workers[i]? with
      | none => none
      | some w =>
        if s.started ∧ w.done = false ∧ w.pending = none then
          some { s with
            workers := s.workers.set i { w with inVisit := false, done := true, failed := true } }
        else none
  | .stopTask =>
      match s.registry with
      | none => none
      | some snap =>
        if snap.status = .running then
          some { s with
            stopFlag := true
            registry := some { snap with status := .stopping, message := stoppingMsg } }
        else none
  | .finalizeRead =>
      if s.started ∧ s.finalized = false ∧ s.flagRead = none ∧ s.workers.all (·.done) then
        some { s with flagRead := some s.stopFlag }
      else none
  | .finalizeWrite =>
      match s.flagRead with
      | none => none
      | some b =>
        if s.finalized then none
        else some { s with
          finalized := true
          registry := some (if b then ⟨.stopped, s.counter, s.total, stoppedMsg⟩
            else ⟨.completed, s.total, s.total, completedMsg s.total⟩) }

/-- Run a list of actions from a state; `none` if any action is disabled
where it occurs. -/
def runTrace (s : SysState) : List Action → Option SysState
  | [] => some s
  | a :: rest =>
      match step s a with
      | none => none
      | some s' => runTrace s' rest

/-- The worker pool as spawned by `ViewerBot.run` (app.py lines 228-233):
worker `i` receives `assignIters total n i` iterations. -/
def initWorkers (total n : Nat) : List WorkerSt :=
  (List.range n).map (fun i => ⟨assignIters total n i, none, false, false, false⟩)

/-- The state of the task's world at the instant `start_bot` returns: the
`bot.run` thread has been spawned (`thread.start()`, line 296) but nothing
of it has executed — in particular `running_tasks` has no entry yet. -/
def initState (total n : Nat) : SysState :=
  ⟨none, 0, false, initWorkers total n, total, none, false, false⟩

/-- `GET /api/status/{task_id}` (app.py lines 306-313): `none` is the
404 `Task not found` branch. -/
def getStatus (s : SysState) : Option TaskSnapshot :=
  s.registry

/-- The `start_bot` handler (app.py lines 283-304) for one request:
pydantic validation, then task-id generation, thread spawn and immediate
response. The returned `SysState` is the spawned task's world at the
moment the response is produced. -/
def startEndpoint (r : RawStartRequest) (nowMs : Nat) :
    Except String (BotStartResponse × SysState) :=
  match parseStartRequest r with
  | .error e => .error e
  | .ok req =>
      .ok (⟨genTaskId nowMs, "Bot started successfully", req.url, req.iterations,
              req.parallel_browsers⟩,
           initState req.iterations.toNat req.parallel_browsers.toNat)

/-! ### Helper lemmas -/

/-- Total work still unassigned across the pool. -/
def sumRemaining (ws : List WorkerSt) : Nat :=
  (ws.map (·.remaining)).sum

theorem sumRemaining_set {l : List WorkerSt} {i : Nat} {w : WorkerSt} (w' : WorkerSt)
    (h : l[i]? = some w) :
    sumRemaining (l.set i w') + w.remaining = sumRemaining l + w'.remaining := by
  induction l generalizing i with
  | nil => simp at h
  | cons x xs ih =>
    cases i with
    | zero =>
      simp only [List.getElem?_cons_zero, Option.some.injEq] at h
      subst h
      simp [sumRemaining]
      omega
    | succ j =>
      simp only [List.getElem?_cons_succ] at h
      have hx := ih (i := j) h
      simp only [List.set, sumRemaining, List.map_cons, List.sum_cons] at hx ⊢
      omega

theorem sum_shares (q r : Nat) :
    ∀ n : Nat, ((List.range n).map (fun i => q + if i < r then 1 else 0)).sum
      = n * q + min r n := by
  intro n
  induction n with
  | zero => simp
  | succ m ih =>
    rw [List.range_succ]
    simp only [List.map_append, List.sum_append, ih, List.map_cons, List.map_nil,
      List.sum_cons, List.sum_nil]
    by_cases hm : m < r
    · rw [if_pos hm, Nat.min_eq_right (by omega), Nat.min_eq_right (by omega), Nat.succ_mul]
      omega
    · rw [if_neg hm, Nat.min_eq_left (by omega), Nat.min_eq_left (by omega), Nat.succ_mul]
      omega

theorem sumRemaining_initWorkers (total n : Nat) (hn : 1 ≤ n) :
    sumRemaining (initWorkers total n) = total := by
  have h2 : total % n < n := Nat.mod_lt _ (by omega)
  have h3 := Nat.div_add_mod total n
  have h1 := sum_shares (total / n) (total % n) n
  simp only [sumRemaining, initWorkers, List.map_map] at h1 ⊢
  have he : ((fun w : WorkerSt => w.remaining) ∘
      fun i => (⟨assignIters total n i, none, false, false, false⟩ : WorkerSt))
      = fun i => total / n + if i < total % n then 1 else 0 := rfl
  rw [he, h1]
  omega

/-! ### The reachability invariant -/

/-- The terminal statuses of the spec's data model. -/
def TerminalStatus (st : Status) : Prop :=
  st = .stopped ∨ st = .completed ∨ st = .error

/-- Invariant of every state reachable from `initState total n` (`1 ≤ n`). -/
structure Inv (s : SysState) : Prop where
  sumEq : s.counter + sumRemaining s.workers = s.total
  pendingLe : ∀ w ∈ s.workers, ∀ v, w.pending = some v → v ≤ s.counter
  doneClean : ∀ w ∈ s.workers, w.done = true → w.pending = none ∧ w.inVisit = false
  visitActive : ∀ w ∈ s.workers, w.inVisit = true → 0 < w.remaining ∧ w.pending = none
  regBound : ∀ snap, s.registry = some snap → snap.total = s.total ∧ snap.current ≤ s.total
  termFin : ∀ snap, s.registry = some snap → TerminalStatus snap.status → s.finalized = true
  finState : s.finalized = true → s.flagRead ≠ none ∧
    ∀ snap, s.registry = some snap → snap.status = .stopped ∨ snap.status = .completed
  readPost : s.flagRead ≠ none → s.started = true ∧ ∀ w ∈ s.workers, w.done = true
  startReg : s.started = true → s.registry ≠ none
  preStart : s.started = false → s.registry = none ∧ s.counter = 0 ∧ s.stopFlag = false ∧
    s.flagRead = none ∧ s.finalized = false ∧
    ∀ w ∈ s.workers, w.pending = none ∧ w.done = false ∧ w.inVisit = false

theorem inv_initState (total n : Nat) (hn : 1 ≤ n) : Inv (initState total n) := by
  refine ⟨?_, ?_, ?_, ?_, ?_, ?_, ?_, ?_, ?_, ?_⟩
  · simpa [initState] using sumRemaining_initWorkers total n hn
  all_goals simp [initState, initWorkers]

theorem step_inv {s s' : SysState} {a : Action}
    (inv : Inv s) (hs : step s a = some s') : Inv s' := by
  cases a with
  | register =>
    simp only [step] at hs
    split at hs
    · simp at hs
    next hns =>
      have hst0 : s.started = false := by
        cases h : s.started
        · rfl
        · exact absurd h hns
      obtain ⟨hreg, hcnt, hflag, hfr, hfin, hwk⟩ := inv.preStart hst0
      injection hs with hs'
      subst hs'
      refine ⟨inv.sumEq, inv.pendingLe, inv.doneClean, inv.visitActive, ?_, ?_, ?_, ?_, ?_, ?_⟩
      · intro snap hsnap
        injection hsnap with h
        subst h
        exact ⟨rfl, Nat.zero_le _⟩
      · intro snap hsnap hterm
        injection hsnap with h
        subst h
        simp [TerminalStatus] at hterm
      · intro hfin'
        exact absurd hfin' (by simp [hfin])
      · intro hfr'
        exact absurd hfr hfr'
      · intro _
        simp
      · intro h'
        simp at h'
  | beginVisit i =>
    cases hw : s.workers[i]? with
    | none => simp [step, hw] at hs
    | some w =>
      simp only [step, hw] at hs
      split at hs
      case isFalse => simp at hs
      case isTrue h =>
        obtain ⟨hst, hdone, hpend, hinV, hrem, hflag⟩ := h
        injection hs with hs'
        subst hs'
        have hwmem : w ∈ s.workers := List.getElem?_mem hw
        refine ⟨?_, ?_, ?_, ?_, inv.regBound, inv.termFin, inv.finState, ?_, inv.startReg, ?_⟩
        · have hss := sumRemaining_set { w with inVisit := true } hw
          have h1 := inv.sumEq
          dsimp only at hss ⊢
          omega
        · intro w' hw' v hv
          rcases List.mem_or_eq_of_mem_set hw' with h' | rfl
          · exact inv.pendingLe w' h' v hv
          · simp [hpend] at hv
        · intro w' hw' hd
          rcases List.mem_or_eq_of_mem_set hw' with h' | rfl
          · exact inv.doneClean w' h' hd
          · simp [hdone] at hd
        · intro w' hw' hv
          rcases List.mem_or_eq_of_mem_set hw' with h' | rfl
          · exact inv.visitActive w' h' hv
          · exact ⟨hrem, hpend⟩
        · intro hfr
          exact absurd ((inv.readPost hfr).2 w hwmem) (by simp [hdone])
        · intro h'
          simp [hst] at h'
  | endVisit i =>
    cases hw : s.workers[i]? with
    | none => simp [step, hw] at hs
    | some w =>
      simp only [step, hw] at hs
      split at hs
      case isFalse => simp at hs
      case isTrue hvis =>
        injection hs with hs'
        subst hs'
        have hwmem : w ∈ s.workers := List.getElem?_mem hw
        obtain ⟨hrem, hpend⟩ := inv.visitActive w hwmem hvis
        have hdone : w.done = false := by
          cases hd : w.done
          · rfl
          · exact absurd (inv.doneClean w hwmem hd).2 (by simp [hvis])
        have hst : s.started = true := by
          cases hstq : s.started
          · exact absurd ((inv.preStart hstq).2.2.2.2.2 w hwmem).2.2 (by simp [hvis])
          · rfl
        refine ⟨?_, ?_, ?_, ?_, inv.regBound, inv.termFin, inv.finState, ?_, inv.startReg, ?_⟩
        · have hss := sumRemaining_set { w with remaining := w.remaining - 1, inVisit := false, pending := if (s.counter + 1) % 10 = 0 ∨ s.counter + 1 = s.total then some (s.counter + 1) else none } hw
          have h1 := inv.sumEq
          dsimp only at hss ⊢
          omega
        · intro w' hw' v hv
          rcases List.mem_or_eq_of_mem_set hw' with h' | rfl
          · have := inv.pendingLe w' h' v hv
            show v ≤ s.counter + 1
            omega
          · simp only at hv
            by_cases hp : (s.counter + 1) % 10 = 0 ∨ s.counter + 1 = s.total
            · rw [if_pos hp] at hv
              injection hv with hv'
              show v ≤ s.counter + 1
              omega
            · rw [if_neg hp] at hv
              cases hv
        · intro w' hw' hd
          rcases List.mem_or_eq_of_mem_set hw' with h' | rfl
          · exact inv.doneClean w' h' hd
          · simp [hdone] at hd
        · intro w' hw' hv
          rcases List.mem_or_eq_of_mem_set hw' with h' | rfl
          · exact inv.visitActive w' h' hv
          · simp at hv
        · intro hfr
          exact absurd ((inv.readPost hfr).2 w hwmem) (by simp [hdone])
        · intro h'
          simp [hst] at h'
  | publishProgress i =>
    cases hw : s.workers[i]? with
    | none => simp [step, hw] at hs
    | some w =>
      simp only [step, hw] at hs
      cases hp : w.pending with
      | none => rw [hp] at hs; simp at hs
      | some v =>
        rw [hp] at hs
        injection hs with hs'
        subst hs'
        have hwmem : w ∈ s.workers := List.getElem?_mem hw
        refine ⟨?_, ?_, ?_, ?_, ?_, ?_, ?_, ?_, ?_, ?_⟩
        · have hss := sumRemaining_set { w with pending := none } hw
          have h1 := inv.sumEq
          dsimp only at hss ⊢
          omega
        · intro w' hw' v' hv'
          rcases List.mem_or_eq_of_mem_set hw' with h' | rfl
          · exact inv.pendingLe w' h' v' hv'
          · simp at hv'
        · intro w' hw' hd
          rcases List.mem_or_eq_of_mem_set hw' with h' | rfl
          · exact inv.doneClean w' h' hd
          · exact ⟨rfl, (inv.doneClean w hwmem hd).2⟩
        · intro w' hw' hv'
          rcases List.mem_or_eq_of_mem_set hw' with h' | rfl
          · exact inv.visitActive w' h' hv'
          · exact ⟨(inv.visitActive w hwmem hv').1, rfl⟩
        · intro snap hsnap
          injection hsnap with h
          subst h
          have h1 := inv.pendingLe w hwmem v hp
          have h2 := inv.sumEq
          dsimp only
          exact ⟨rfl, by omega⟩
        · intro snap hsnap hterm
          injection hsnap with h
          subst h
          simp [TerminalStatus] at hterm
        · intro hfin
          have hpn := (inv.doneClean w hwmem
            ((inv.readPost (inv.finState hfin).1).2 w hwmem)).1
          rw [hpn] at hp
          cases hp
        · intro hfr
          exact absurd ((inv.doneClean w hwmem ((inv.readPost hfr).2 w hwmem)).1 ▸ hp)
            (by simp)
        · intro _
          simp
        · intro h'
          have := ((inv.preStart h').2.2.2.2.2 w hwmem).1
          rw [this] at hp
          cases hp
  | exitStop i =>
    cases hw : s.workers[i]? with
    | none => simp [step, hw] at hs
    | some w =>
      simp only [step, hw] at hs
      split at hs
      case isFalse => simp at hs
      case isTrue h =>
        obtain ⟨hst, hdone, hpend, hinV, hflag⟩ := h
        injection hs with hs'
        subst hs'
        have hwmem : w ∈ s.workers := List.getElem?_mem hw
        refine ⟨?_, ?_, ?_, ?_, inv.regBound, inv.termFin, inv.finState, ?_, inv.startReg, ?_⟩
        · have hss := sumRemaining_set { w with done := true } hw
          have h1 := inv.sumEq
          dsimp only at hss ⊢
          omega
        · intro w' hw' v hv
          rcases List.mem_or_eq_of_mem_set hw' with h' | rfl
          · exact inv.pendingLe w' h' v hv
          · simp [hpend] at hv
        · intro w' hw' hd
          rcases List.mem_or_eq_of_mem_set hw' with h' | rfl
          · exact inv.doneClean w' h' hd
          · exact ⟨hpend, hinV⟩
        · intro w' hw' hv
          rcases List.mem_or_eq_of_mem_set hw' with h' | rfl
          · exact inv.visitActive w' h' hv
          · simp [hinV] at hv
        · intro hfr
          exact absurd ((inv.readPost hfr).2 w hwmem) (by simp [hdone])
        · intro h'
          simp [hst] at h'
  | exitDone i =>
    cases hw : s.workers[i]? with
    | none => simp [step, hw] at hs
    | some w =>
      simp only [step, hw] at hs
      split at hs
      case isFalse => simp at hs
      case isTrue h =>
        obtain ⟨hst, hdone, hpend, hinV, hrem⟩ := h
        injection hs with hs'
        subst hs'
        have hwmem : w ∈ s.workers := List.getElem?_mem hw
        refine ⟨?_, ?_, ?_, ?_, inv.regBound, inv.termFin, inv.finState, ?_, inv.startReg, ?_⟩
        · have hss := sumRemaining_set { w with done := true } hw
          have h1 := inv.sumEq
          dsimp only at hss ⊢
          omega
        · intro w' hw' v hv
          rcases List.mem_or_eq_of_mem_set hw' with h' | rfl
          · exact inv.pendingLe w' h' v hv
          · simp [hpend] at hv
        · intro w' hw' hd
          rcases List.mem_or_eq_of_mem_set hw' with h' | rfl
          · exact inv.doneClean w' h' hd
          · exact ⟨hpend, hinV⟩
        · intro w' hw' hv
          rcases List.mem_or_eq_of_mem_set hw' with h' | rfl
          · exact inv.visitActive w' h' hv
          · simp [hinV] at hv
        · intro hfr
          exact absurd ((inv.readPost hfr).2 w hwmem) (by simp [hdone])
        · intro h'
          simp [hst] at h'
  | fail i =>
    cases hw : s.workers[i]? with
    | none => simp [step, hw] at hs
    | some w =>
      simp only [step, hw] at hs
      split at hs
      case isFalse => simp at hs
      case isTrue h =>
        obtain ⟨hst, hdone, hpend⟩ := h
        injection hs with hs'
        subst hs'
        have hwmem : w ∈ s.workers := List.getElem?_mem hw
        refine ⟨?_, ?_, ?_, ?_, inv.regBound, inv.termFin, inv.finState, ?_, inv.startReg, ?_⟩
        · have hss := sumRemaining_set { w with inVisit := false, done := true, failed := true } hw
          have h1 := inv.sumEq
          dsimp only at hss ⊢
          omega
        · intro w' hw' v hv
          rcases List.mem_or_eq_of_mem_set hw' with h' | rfl
          · exact inv.pendingLe w' h' v hv
          · simp [hpend] at hv
        · intro w' hw' hd
          rcases List.mem_or_eq_of_mem_set hw' with h' | rfl
          · exact inv.doneClean w' h' hd
          · exact ⟨hpend, rfl⟩
        · intro w' hw' hv
          rcases List.mem_or_eq_of_mem_set hw' with h' | rfl
          · exact inv.visitActive w' h' hv
          · simp at hv
        · intro hfr
          exact absurd ((inv.readPost hfr).2 w hwmem) (by simp [hdone])
        · intro h'
          simp [hst] at h'
  | stopTask =>
    cases hreg : s.registry with
    | none => simp [step, hreg] at hs
    | some snap =>
      simp only [step, hreg] at hs
      split at hs
      case isFalse => simp at hs
      case isTrue hrun =>
        injection hs with hs'
        subst hs'
        refine ⟨inv.sumEq, inv.pendingLe, inv.doneClean, inv.visitActive, ?_, ?_, ?_,
          inv.readPost, ?_, ?_⟩
        · intro snap' hsnap'
          injection hsnap' with h
          subst h
          exact ⟨(inv.regBound snap hreg).1, (inv.regBound snap hreg).2⟩
        · intro snap' hsnap' hterm
          injection hsnap' with h
          subst h
          simp [TerminalStatus] at hterm
        · intro hfin
          rcases (inv.finState hfin).2 snap hreg with h' | h' <;>
            (rw [hrun] at h'; simp at h')
        · intro _
          simp
        · intro h'
          rw [(inv.preStart h').1] at hreg
          cases hreg
  | finalizeRead =>
    simp only [step] at hs
    split at hs
    case isFalse => simp at hs
    case isTrue h =>
      obtain ⟨hst, hnfin, hfrnone, halldone⟩ := h
      injection hs with hs'
      subst hs'
      refine ⟨inv.sumEq, inv.pendingLe, inv.doneClean, inv.visitActive, inv.regBound,
        inv.termFin, ?_, ?_, inv.startReg, ?_⟩
      · intro hfin
        exact absurd hfin (by simp [hnfin])
      · intro _
        exact ⟨hst, List.all_eq_true.mp halldone⟩
      · intro h'
        simp [hst] at h'
  | finalizeWrite =>
    cases hfr : s.flagRead with
    | none => simp [step, hfr] at hs
    | some b =>
      simp only [step, hfr] at hs
      split at hs
      case isTrue => simp at hs
      case isFalse hnfin =>
        have hread := inv.readPost (by simp [hfr])
        injection hs with hs'
        subst hs'
        refine ⟨inv.sumEq, inv.pendingLe, inv.doneClean, inv.visitActive, ?_, ?_, ?_, ?_, ?_, ?_⟩
        · intro snap hsnap
          injection hsnap with h
          subst h
          cases b
          · simp
          · have h1 := inv.sumEq
            simp
            omega
        · intro _ _ _
          rfl
        · intro _
          refine ⟨by simp, ?_⟩
          intro snap hsnap
          injection hsnap with h
          subst h
          cases b
          · simp
          · simp
        · intro _
          exact ⟨hread.1, hread.2⟩
        · intro _
          simp
        · intro h'
          simp [hread.1] at h'

theorem runTrace_inv {acts : List Action} :
    ∀ {s s' : SysState}, Inv s → runTrace s acts = some s' → Inv s' := by
  induction acts with
  | nil =>
    intro s s' inv h
    simp only [runTrace, Option.some.injEq] at h
    subst h
    exact inv
  | cons a rest ih =>
    intro s s' inv h
    simp only [runTrace] at h
    cases hstep : step s a with
    | none => rw [hstep] at h; simp at h
    | some s1 => rw [hstep] at h; exact ih (step_inv inv hstep) h

theorem runTrace_append (acts₁ acts₂ : List Action) :
    ∀ s : SysState, runTrace s (acts₁ ++ acts₂)
      = (runTrace s acts₁).bind fun s1 => runTrace s1 acts₂ := by
  induction acts₁ with
  | nil => intro s; simp [runTrace]
  | cons a rest ih =>
    intro s
    simp only [List.cons_append, runTrace]
    cases step s a with
    | none => simp
    | some s1 => simp [ih]

/-- All steps preserve `total`, never decrease the shared counter, and only
`finalizeRead` writes `flagRead`. -/
theorem step_frame {s s' : SysState} {a : Action} (hs : step s a = some s') :
    s'.total = s.total ∧ s.counter ≤ s'.counter
    ∧ (a ≠ Action.finalizeRead → s'.flagRead = s.flagRead) := by
  cases a with
  | register =>
    simp only [step] at hs
    split at hs
    · simp at hs
    · injection hs with h; subst h; exact ⟨rfl, Nat.le_refl _, fun _ => rfl⟩
  | beginVisit i =>
    cases hw : s.workers[i]? with
    | none => simp [step, hw] at hs
    | some w =>
      simp only [step, hw] at hs
      split at hs
      · injection hs with h; subst h; exact ⟨rfl, Nat.le_refl _, fun _ => rfl⟩
      · simp at hs
  | endVisit i =>
    cases hw : s.workers[i]? with
    | none => simp [step, hw] at hs
    | some w =>
      simp only [step, hw] at hs
      split at hs
      · injection hs with h; subst h; exact ⟨rfl, Nat.le_succ _, fun _ => rfl⟩
      · simp at hs
  | publishProgress i =>
    cases hw : s.workers[i]? with
    | none => simp [step, hw] at hs
    | some w =>
      simp only [step, hw] at hs
      cases hp : w.pending with
      | none => rw [hp] at hs; simp at hs
      | some v =>
        rw [hp] at hs
        injection hs with h; subst h; exact ⟨rfl, Nat.le_refl _, fun _ => rfl⟩
  | exitStop i =>
    cases hw : s.workers[i]? with
    | none => simp [step, hw] at hs
    | some w =>
      simp only [step, hw] at hs
      split at hs
      · injection hs with h; subst h; exact ⟨rfl, Nat.le_refl _, fun _ => rfl⟩
      · simp at hs
  | exitDone i =>
    cases hw : s.workers[i]? with
    | none => simp [step, hw] at hs
    | some w =>
      simp only [step, hw] at hs
      split at hs
      · injection hs with h; subst h; exact ⟨rfl, Nat.le_refl _, fun _ => rfl⟩
      · simp at hs
  | fail i =>
    cases hw : s.workers[i]? with
    | none => simp [step, hw] at hs
    | some w =>
      simp only [step, hw] at hs
      split at hs
      · injection hs with h; subst h; exact ⟨rfl, Nat.le_refl _, fun _ => rfl⟩
      · simp at hs
  | stopTask =>
    cases hreg : s.registry with
    | none => simp [step, hreg] at hs
    | some snap =>
      simp only [step, hreg] at hs
      split at hs
      · injection hs with h; subst h; exact ⟨rfl, Nat.le_refl _, fun _ => rfl⟩
      · simp at hs
  | finalizeRead =>
    simp only [step] at hs
    split at hs
    · injection hs with h; subst h; exact ⟨rfl, Nat.le_refl _, fun hne => absurd rfl hne⟩
    · simp at hs
  | finalizeWrite =>
    cases hfr : s.flagRead with
    | none => simp [step, hfr] at hs
    | some b =>
      simp only [step, hfr] at hs
      split at hs
      · simp at hs
      · injection hs with h; subst h; exact ⟨rfl, Nat.le_refl _, fun _ => rfl⟩

theorem runTrace_total {acts : List Action} :
    ∀ {s s' : SysState}, runTrace s acts = some s' → s'.total = s.total := by
  induction acts with
  | nil =>
    intro s s' h
    simp only [runTrace, Option.some.injEq] at h
    subst h
    rfl
  | cons a rest ih =>
    intro s s' h
    simp only [runTrace] at h
    cases hstep : step s a with
    | none => rw [hstep] at h; simp at h
    | some s1 =>
      rw [hstep] at h
      rw [ih h, (step_frame hstep).1]

theorem runTrace_flagRead_none {acts : List Action} :
    ∀ {s s' : SysState}, s.flagRead = none → Action.finalizeRead ∉ acts →
      runTrace s acts = some s' → s'.flagRead = none := by
  induction acts with
  | nil =>
    intro s s' hfr _ h
    simp only [runTrace, Option.some.injEq] at h
    subst h
    exact hfr
  | cons a rest ih =>
    intro s s' hfr hmem h
    simp only [runTrace] at h
    cases hstep : step s a with
    | none => rw [hstep] at h; simp at h
    | some s1 =>
      rw [hstep] at h
      have ha : a ≠ Action.finalizeRead := fun hc => hmem (hc ▸ List.mem_cons_self a rest)
      exact ih (((step_frame hstep).2.2 ha).trans hfr) (fun hc => hmem (List.mem_cons_of_mem a hc)) h

/-- Once the registry holds a terminal status, no action of the task is
enabled any more. -/
theorem terminal_no_step {s : SysState} (inv : Inv s) {snap : TaskSnapshot}
    (hreg : s.registry = some snap) (hterm : TerminalStatus snap.status) :
    ∀ a, step s a = none := by
  intro a
  have hfin : s.finalized = true := inv.termFin snap hreg hterm
  have hfr := (inv.finState hfin).1
  obtain ⟨hstarted, halldone⟩ := inv.readPost hfr
  cases a with
  | register => simp [step, hstarted]
  | beginVisit i =>
    cases hw : s.workers[i]? with
    | none => simp [step, hw]
    | some w =>
      have hd := halldone w (List.getElem?_mem hw)
      simp [step, hw, hd]
  | endVisit i =>
    cases hw : s.workers[i]? with
    | none => simp [step, hw]
    | some w =>
      have hd := halldone w (List.getElem?_mem hw)
      simp [step, hw, (inv.doneClean w (List.getElem?_mem hw) hd).2]
  | publishProgress i =>
    cases hw : s.workers[i]? with
    | none => simp [step, hw]
    | some w =>
      have hd := halldone w (List.getElem?_mem hw)
      simp [step, hw, (inv.doneClean w (List.getElem?_mem hw) hd).1]
  | exitStop i =>
    cases hw : s.workers[i]? with
    | none => simp [step, hw]
    | some w =>
      have hd := halldone w (List.getElem?_mem hw)
      simp [step, hw, hd]
  | exitDone i =>
    cases hw : s.workers[i]? with
    | none => simp [step, hw]
    | some w =>
      have hd := halldone w (List.getElem?_mem hw)
      simp [step, hw, hd]
  | fail i =>
    cases hw : s.workers[i]? with
    | none => simp [step, hw]
    | some w =>
      have hd := halldone w (List.getElem?_mem hw)
      simp [step, hw, hd]
  | stopTask =>
    rcases hterm with h | h | h <;> simp [step, hreg, h]
  | finalizeRead => simp [step, hfin]
  | finalizeWrite =>
    cases hfrq : s.flagRead with
    | none => exact absurd hfrq hfr
    | some b => simp [step, hfrq, hfin]

/-- State of a task on which an effective stop has occurred: the flag is
set and can only ever be read as true, so finalization writes `stopped`. -/
def StopInv (s : SysState) : Prop :=
  s.stopFlag = true ∧ (s.flagRead = none ∨ s.flagRead = some true) ∧
  (s.finalized = true → ∀ snap, s.registry = some snap → snap.status = Status.stopped)

theorem stopTask_stopInv {s s' : SysState} (inv : Inv s) (hfr : s.flagRead = none)
    (hs : step s Action.stopTask = some s') : StopInv s' := by
  cases hreg : s.registry with
  | none => simp [step, hreg] at hs
  | some snap =>
    simp only [step, hreg] at hs
    split at hs
    case isFalse => simp at hs
    case isTrue hrun =>
      injection hs with h
      subst h
      refine ⟨rfl, Or.inl hfr, ?_⟩
      intro hfin'
      exact absurd hfr (inv.finState hfin').1

theorem step_stopInv {s s' : SysState} {a : Action} (inv : Inv s) (hsi : StopInv s)
    (hs : step s a = some s') : StopInv s' := by
  obtain ⟨hflag, hfr, hfin⟩ := hsi
  cases a with
  | register =>
    simp only [step] at hs
    split at hs
    · simp at hs
    next hns =>
      have hst0 : s.started = false := by
        cases h : s.started
        · rfl
        · exact absurd h hns
      exact absurd hflag (by simp [(inv.preStart hst0).2.2.1])
  | beginVisit i =>
    cases hw : s.workers[i]? with
    | none => simp [step, hw] at hs
    | some w => simp [step, hw, hflag] at hs
  | endVisit i =>
    cases hw : s.workers[i]? with
    | none => simp [step, hw] at hs
    | some w =>
      simp only [step, hw] at hs
      split at hs
      · injection hs with h; subst h; exact ⟨hflag, hfr, hfin⟩
      · simp at hs
  | publishProgress i =>
    cases hw : s.workers[i]? with
    | none => simp [step, hw] at hs
    | some w =>
      simp only [step, hw] at hs
      cases hp : w.pending with
      | none => rw [hp] at hs; simp at hs
      | some v =>
        rw [hp] at hs
        injection hs with h
        subst h
        refine ⟨hflag, hfr, ?_⟩
        intro hfin' snap hsnap
        have hpn := (inv.doneClean w (List.getElem?_mem hw)
          ((inv.readPost (inv.finState hfin').1).2 w (List.getElem?_mem hw))).1
        rw [hpn] at hp
        cases hp
  | exitStop i =>
    cases hw : s.workers[i]? with
    | none => simp [step, hw] at hs
    | some w =>
      simp only [step, hw] at hs
      split at hs
      · injection hs with h; subst h; exact ⟨hflag, hfr, hfin⟩
      · simp at hs
  | exitDone i =>
    cases hw : s.workers[i]? with
    | none => simp [step, hw] at hs
    | some w =>
      simp only [step, hw] at hs
      split at hs
      · injection hs with h; subst h; exact ⟨hflag, hfr, hfin⟩
      · simp at hs
  | fail i =>
    cases hw : s.workers[i]? with
    | none => simp [step, hw] at hs
    | some w =>
      simp only [step, hw] at hs
      split at hs
      · injection hs with h; subst h; exact ⟨hflag, hfr, hfin⟩
      · simp at hs
  | stopTask =>
    cases hreg : s.registry with
    | none => simp [step, hreg] at hs
    | some snap =>
      simp only [step, hreg] at hs
      split at hs
      case isFalse => simp at hs
      case isTrue hrun =>
        injection hs with h
        subst h
        refine ⟨rfl, hfr, ?_⟩
        intro hfin' snap' hsnap'
        rcases (inv.finState hfin').2 snap hreg with h' | h' <;>
          (rw [hrun] at h'; cases h')
  | finalizeRead =>
    simp only [step] at hs
    split at hs
    case isFalse => simp at hs
    case isTrue h =>
      obtain ⟨hst, hnfin, hfrnone, halldone⟩ := h
      injection hs with h'
      subst h'
      refine ⟨hflag, Or.inr (by simp [hflag]), ?_⟩
      intro hfin'
      exact absurd hfin' (by simp [hnfin])
  | finalizeWrite =>
    cases hfrq : s.flagRead with
    | none => simp [step, hfrq] at hs
    | some b =>
      simp only [step, hfrq] at hs
      split at hs
      case isTrue => simp at hs
      case isFalse hnfin =>
        injection hs with h
        subst h
        have hb : b = true := by
          rcases hfr with h' | h'
          · rw [hfrq] at h'; cases h'
          · rw [hfrq] at h'; exact Option.some.inj h'
        subst hb
        refine ⟨hflag, Or.inr (by simp [hfrq]), ?_⟩
        intro _ snap hsnap
        injection hsnap with h'
        subst h'
        rfl

theorem runTrace_stopInv {acts : List Action} :
    ∀ {s s' : SysState}, Inv s → StopInv s → runTrace s acts = some s' → StopInv s' := by
  induction acts with
  | nil =>
    intro s s' _ hsi h
    simp only [runTrace, Option.some.injEq] at h
    subst h
    exact hsi
  | cons a rest ih =>
    intro s s' inv hsi h
    simp only [runTrace] at h
    cases hstep : step s a with
    | none => rw [hstep] at h; simp at h
    | some s1 =>
      rw [hstep] at h
      exact ih (step_inv inv hstep) (step_stopInv inv hsi hstep) h

/-- State of a task for which no effective stop ever occurred: the flag is
clear and can only be read as false, so finalization writes `completed`
with `current = total`. -/
def NoStopInv (s : SysState) : Prop :=
  s.stopFlag = false ∧ (s.flagRead = none ∨ s.flagRead = some false) ∧
  (s.finalized = true →
    s.registry = some ⟨Status.completed, s.total, s.total, completedMsg s.total⟩)

theorem step_noStopInv {s s' : SysState} {a : Action} (inv : Inv s) (hsi : NoStopInv s)
    (ha : a ≠ Action.stopTask) (hs : step s a = some s') : NoStopInv s' := by
  obtain ⟨hflag, hfr, hfin⟩ := hsi
  cases a with
  | register =>
    simp only [step] at hs
    split at hs
    · simp at hs
    next hns =>
      have hst0 : s.started = false := by
        cases h : s.started
        · rfl
        · exact absurd h hns
      obtain ⟨_, _, _, hfr0, hfin0, _⟩ := inv.preStart hst0
      injection hs with h
      subst h
      exact ⟨rfl, Or.inl hfr0, fun hfin' => absurd hfin' (by simp [hfin0])⟩
  | beginVisit i =>
    cases hw : s.workers[i]? with
    | none => simp [step, hw] at hs
    | some w =>
      simp only [step, hw] at hs
      split at hs
      · injection hs with h; subst h; exact ⟨hflag, hfr, hfin⟩
      · simp at hs
  | endVisit i =>
    cases hw : s.workers[i]? with
    | none => simp [step, hw] at hs
    | some w =>
      simp only [step, hw] at hs
      split at hs
      · injection hs with h; subst h; exact ⟨hflag, hfr, hfin⟩
      · simp at hs
  | publishProgress i =>
    cases hw : s.workers[i]? with
    | none => simp [step, hw] at hs
    | some w =>
      simp only [step, hw] at hs
      cases hp : w.pending with
      | none => rw [hp] at hs; simp at hs
      | some v =>
        rw [hp] at hs
        injection hs with h
        subst h
        refine ⟨hflag, hfr, ?_⟩
        intro hfin'
        have hpn := (inv.doneClean w (List.getElem?_mem hw)
          ((inv.readPost (inv.finState hfin').1).2 w (List.getElem?_mem hw))).1
        rw [hpn] at hp
        cases hp
  | exitStop i =>
    cases hw : s.workers[i]? with
    | none => simp [step, hw] at hs
    | some w =>
      simp only [step, hw] at hs
      split at hs
      · injection hs with h; subst h; exact ⟨hflag, hfr, hfin⟩
      · simp at hs
  | exitDone i =>
    cases hw : s.workers[i]? with
    | none => simp [step, hw] at hs
    | some w =>
      simp only [step, hw] at hs
      split at hs
      · injection hs with h; subst h; exact ⟨hflag, hfr, hfin⟩
      · simp at hs
  | fail i =>
    cases hw : s.workers[i]? with
    | none => simp [step, hw] at hs
    | some w =>
      simp only [step, hw] at hs
      split at hs
      · injection hs with h; subst h; exact ⟨hflag, hfr, hfin⟩
      · simp at hs
  | stopTask => exact absurd rfl ha
  | finalizeRead =>
    simp only [step] at hs
    split at hs
    case isFalse => simp at hs
    case isTrue h =>
      obtain ⟨hst, hnfin, hfrnone, halldone⟩ := h
      injection hs with h'
      subst h'
      exact ⟨hflag, Or.inr (by simp [hflag]), fun hfin' => absurd hfin' (by simp [hnfin])⟩
  | finalizeWrite =>
    cases hfrq : s.flagRead with
    | none => simp [step, hfrq] at hs
    | some b =>
      simp only [step, hfrq] at hs
      split at hs
      case isTrue => simp at hs
      case isFalse hnfin =>
        injection hs with h
        subst h
        have hb : b = false := by
          rcases hfr with h' | h'
          · rw [hfrq] at h'; cases h'
          · rw [hfrq] at h'; exact Option.some.inj h'
        subst hb
        exact ⟨hflag, Or.inr (by simp [hfrq]), fun _ => rfl⟩

theorem runTrace_noStopInv {acts : List Action} :
    ∀ {s s' : SysState}, Inv s → NoStopInv s → Action.stopTask ∉ acts →
      runTrace s acts = some s' → NoStopInv s' := by
  induction acts with
  | nil =>
    intro s s' _ hsi _ h
    simp only [runTrace, Option.some.injEq] at h
    subst h
    exact hsi
  | cons a rest ih =>
    intro s s' inv hsi hmem h
    simp only [runTrace] at h
    cases hstep : step s a with
    | none => rw [hstep] at h; simp at h
    | some s1 =>
      rw [hstep] at h
      have ha : a ≠ Action.stopTask := fun hc => hmem (hc ▸ List.mem_cons_self a rest)
      exact ih (step_inv inv hstep) (step_noStopInv inv hsi ha hstep)
        (fun hc => hmem (List.mem_cons_of_mem a hc)) h

/-! ### Claim theorems -/

/-- Claim C1: for every total iteration count and worker count accepted by
start (`1 ≤ n` suffices), the partition used by `ViewerBot.run` and
`try_fast.main` assigns shares that sum to the total, any two shares differ
by at most 1, and the remainder `total % n` is distributed one extra
iteration each to the first `total % n` workers. -/
theorem partition_correct (total n : Nat) (hn : 1 ≤ n) :
    ((List.range n).map (assignIters total n)).sum = total
    ∧ (∀ i j, i < n → j < n → assignIters total n i ≤ assignIters total n j + 1)
    ∧ (∀ i, i < total % n → assignIters total n i = total / n + 1)
    ∧ (∀ i, total % n ≤ i → assignIters total n i = total / n) := by
  refine ⟨?_, ?_, ?_, ?_⟩
  · have h2 : total % n < n := Nat.mod_lt _ (by omega)
    have h3 := Nat.div_add_mod total n
    have h1 := sum_shares (total / n) (total % n) n
    have he : assignIters total n = fun i => total / n + if i < total % n then 1 else 0 := rfl
    rw [he, h1, Nat.min_eq_left (Nat.le_of_lt h2)]
    exact h3
  · intro i j _ _
    simp only [assignIters]
    split_ifs <;> omega
  · intro i hi
    simp [assignIters, if_pos hi]
  · intro i hi
    simp [assignIters, if_neg (Nat.not_lt.mpr hi)]

/-- Witness for `partition_correct` at `total = 10`, `n = 3`
(the spec's own scenario: shares 4, 3, 3). -/
theorem partition_correct_witness :
    ((List.range 3).map (assignIters 10 3)).sum = 10 ∧ assignIters 10 3 0 = 10 / 3 + 1 :=
  ⟨(partition_correct 10 3 (by decide)).1,
   (partition_correct 10 3 (by decide)).2.2.1 0 (by decide)⟩

/-- Claim C7: a start request whose url strips to empty, whose iterations
lie outside [1,10000], or whose parallel_browsers lie outside [1,10] is
rejected by the pydantic validators before the handler runs, so no task
state of any kind is produced. -/
theorem invalid_request_rejected (r : RawStartRequest) (nowMs : Nat)
    (h : pyStrip r.url = "" ∨ r.iterations ≤ 0 ∨ r.iterations > 10000
      ∨ r.parallel_browsers < 1 ∨ r.parallel_browsers > 10) :
    isError (startEndpoint r nowMs) = true := by
  have herr : ∀ e : String, parseStartRequest r = .error e →
      isError (startEndpoint r nowMs) = true := by
    intro e he
    simp [startEndpoint, he, isError]
  rcases h with h | h | h | h | h
  · have hvu : validateUrl r.url = .error "URL is required" := by
      simp [validateUrl, h]
    exact herr "URL is required" (by simp [parseStartRequest, hvu])
  · have hvi : validateIterations r.iterations = .error "Iterations must be between 1 and 10000" := by
      unfold validateIterations
      rw [if_pos (Or.inl h)]
    cases hvu : validateUrl r.url with
    | error e => exact herr e (by simp [parseStartRequest, hvu])
    | ok u => exact herr "Iterations must be between 1 and 10000" (by simp [parseStartRequest, hvu, hvi])
  · have hvi : validateIterations r.iterations = .error "Iterations must be between 1 and 10000" := by
      unfold validateIterations
      rw [if_pos (Or.inr h)]
    cases hvu : validateUrl r.url with
    | error e => exact herr e (by simp [parseStartRequest, hvu])
    | ok u => exact herr "Iterations must be between 1 and 10000" (by simp [parseStartRequest, hvu, hvi])
  · have hvp : validateParallelBrowsers r.parallel_browsers
        = .error "Parallel browsers must be between 1 and 10" := by
      unfold validateParallelBrowsers
      rw [if_pos (Or.inl h)]
    cases hvu : validateUrl r.url with
    | error e => exact herr e (by simp [parseStartRequest, hvu])
    | ok u =>
      cases hvi : validateIterations r.iterations with
      | error e => exact herr e (by simp [parseStartRequest, hvu, hvi])
      | ok it => exact herr "Parallel browsers must be between 1 and 10" (by simp [parseStartRequest, hvu, hvi, hvp])
  · have hvp : validateParallelBrowsers r.parallel_browsers
        = .error "Parallel browsers must be between 1 and 10" := by
      unfold validateParallelBrowsers
      rw [if_pos (Or.inr h)]
    cases hvu : validateUrl r.url with
    | error e => exact herr e (by simp [parseStartRequest, hvu])
    | ok u =>
      cases hvi : validateIterations r.iterations with
      | error e => exact herr e (by simp [parseStartRequest, hvu, hvi])
      | ok it => exact herr "Parallel browsers must be between 1 and 10" (by simp [parseStartRequest, hvu, hvi, hvp])

/-- Witness for `invalid_request_rejected`: iterations = 0 is rejected. -/
theorem invalid_request_rejected_witness :
    isError (startEndpoint ⟨"example.com", 0, 3⟩ 0) = true :=
  invalid_request_rejected ⟨"example.com", 0, 3⟩ 0 (by decide)

/-- Claim C8: `cleanup_resources` deletes every `active_drivers` entry, so
running it twice in a row with no intervening registration makes the second
call report `closed = 0` with no errors; it is safe to repeat and always
leaves every task's session set cleared. -/
theorem cleanup_twice_closed_zero (ad : List (String × DriverEntry)) :
    (cleanupResources ad).2.2 = []
    ∧ cleanupResources (cleanupResources ad).2.2 = (0, [], []) :=
  ⟨rfl, rfl⟩

/-- Claim C9 counterexample: two distinct start calls 700 ms apart but
within the same wall-clock second receive the same TaskId, refuting
"never reused / unique per creation". -/
theorem taskId_collision :
    genTaskId 100200 = genTaskId 100900 ∧ (100200 : Nat) ≠ 100900 :=
  ⟨rfl, by decide⟩

/-- Claim C9 amended: the TaskId generated by `start_bot` depends only on
the integer wall-clock second `int(time.time())`, so any two start calls in
the same second share one TaskId (ids are not unique per call). -/
theorem taskId_same_second (n₁ n₂ : Nat) (h : n₁ / 1000 = n₂ / 1000) :
    genTaskId n₁ = genTaskId n₂ := by
  unfold genTaskId
  rw [h]

/-- Witness for `taskId_same_second`. -/
theorem taskId_same_second_witness : genTaskId 5000 = genTaskId 5999 :=
  taskId_same_second 5000 5999 (by decide)

/-- Claim C10: the url is stripped before validation (so a whitespace-only
url is rejected as empty with the pydantic error), and a successful start
response echoes the validator's normalized url — stripped and
`https://`-prefixed when no scheme was present — not the raw input. -/
theorem url_normalization (u : String) (r : RawStartRequest) (nowMs : Nat)
    (resp : BotStartResponse) (st : SysState)
    (hu : pyStrip u = "")
    (hok : startEndpoint r nowMs = Except.ok (resp, st)) :
    validateUrl u = Except.error "URL is required"
    ∧ validateUrl r.url = Except.ok resp.url
    ∧ validateUrl "   example.com  " = Except.ok "https://example.com" := by
  refine ⟨by simp [validateUrl, hu], ?_, by decide⟩
  unfold startEndpoint at hok
  cases hpr : parseStartRequest r with
  | error e => rw [hpr] at hok; cases hok
  | ok req =>
    rw [hpr] at hok
    injection hok with h'
    rw [Prod.mk.injEq] at h'
    obtain ⟨hresp, _⟩ := h'
    subst hresp
    unfold parseStartRequest at hpr
    cases hvu : validateUrl r.url with
    | error e => simp [hvu] at hpr
    | ok u' =>
      simp only [hvu] at hpr
      cases hvi : validateIterations r.iterations with
      | error e => simp [hvi] at hpr
      | ok it =>
        simp only [hvi] at hpr
        cases hvp : validateParallelBrowsers r.parallel_browsers with
        | error e => simp [hvp] at hpr
        | ok p =>
          simp only [hvp] at hpr
          injection hpr with h''
          subst h''
          rfl

/-- Witness for `url_normalization`. -/
theorem url_normalization_witness :
    validateUrl " \t " = Except.error "URL is required"
    ∧ validateUrl (⟨"example.com", 10, 3⟩ : RawStartRequest).url
        = Except.ok (⟨genTaskId 0, "Bot started successfully", "https://example.com", 10, 3⟩ :
            BotStartResponse).url
    ∧ validateUrl "   example.com  " = Except.ok "https://example.com" :=
  url_normalization " \t " ⟨"example.com", 10, 3⟩ 0
    ⟨genTaskId 0, "Bot started successfully", "https://example.com", 10, 3⟩
    (initState 10 3) (by decide) (by decide)

/-- Claim C2 counterexample: a `stop` issued on a task whose status is
Running (the `stopTask` step is only enabled then) but arriving between the
finalizer's read of the stop flag and its terminal write is lost: the task
finalizes to `Completed`, refuting "eventually Stopped — never Completed". -/
theorem stop_lost_completed :
    (runTrace (initState 10 1)
      ([Action.register]
        ++ (List.replicate 10 [Action.beginVisit 0, Action.endVisit 0]).flatten
        ++ [Action.publishProgress 0, Action.exitDone 0, Action.finalizeRead,
            Action.stopTask, Action.finalizeWrite])).map
      (fun s => (s.registry.map (·.status), s.finalized))
    = some (some Status.completed, true) := by decide

/-- Claim C2 amended: if the stop takes effect before the finalizer reads
the flag (so it is not lost to that race), the task — once finalized — is
`Stopped`, never `Completed`, and its published `current` never exceeds
`total`. -/
theorem stop_effective_gives_stopped (total n : Nat) (l₁ l₂ : List Action) (s : SysState)
    (hn : 1 ≤ n)
    (hrun : runTrace (initState total n) (l₁ ++ Action.stopTask :: l₂) = some s)
    (hnr : Action.finalizeRead ∉ l₁)
    (hfin : s.finalized = true) :
    ∀ snap, s.registry = some snap →
      snap.status = Status.stopped ∧ snap.current ≤ snap.total := by
  rw [runTrace_append l₁ (Action.stopTask :: l₂) (initState total n)] at hrun
  cases h1 : runTrace (initState total n) l₁ with
  | none => rw [h1] at hrun; simp at hrun
  | some s₁ =>
    rw [h1] at hrun
    have hrun' : runTrace s₁ (Action.stopTask :: l₂) = some s := hrun
    simp only [runTrace] at hrun'
    cases h2 : step s₁ Action.stopTask with
    | none => rw [h2] at hrun'; simp at hrun'
    | some s₂ =>
      rw [h2] at hrun'
      have inv₁ := runTrace_inv (inv_initState total n hn) h1
      have hfr₁ : s₁.flagRead = none := runTrace_flagRead_none rfl hnr h1
      have inv₂ := step_inv inv₁ h2
      have hsi := runTrace_stopInv inv₂ (stopTask_stopInv inv₁ hfr₁ h2) hrun'
      have inv := runTrace_inv inv₂ hrun'
      intro snap hsnap
      refine ⟨hsi.2.2 hfin snap hsnap, ?_⟩
      have hb := inv.regBound snap hsnap
      omega

/-- Witness for `stop_effective_gives_stopped`: stop right after
registration, workers exit cooperatively, finalization writes Stopped. -/
theorem stop_effective_gives_stopped_witness :
    (⟨Status.stopped, 0, 10, stoppedMsg⟩ : TaskSnapshot).status = Status.stopped
    ∧ (⟨Status.stopped, 0, 10, stoppedMsg⟩ : TaskSnapshot).current
        ≤ (⟨Status.stopped, 0, 10, stoppedMsg⟩ : TaskSnapshot).total :=
  stop_effective_gives_stopped 10 1 [Action.register]
    [Action.exitStop 0, Action.finalizeRead, Action.finalizeWrite]
    ⟨some ⟨Status.stopped, 0, 10, stoppedMsg⟩, 0, true,
      [⟨10, none, false, true, false⟩], 10, some true, true, true⟩
    (by decide) (by decide) (by decide) rfl
    ⟨Status.stopped, 0, 10, stoppedMsg⟩ rfl

/-- Claim C3 counterexample: after `stop` has set the status to Stopping, a
worker that was already past its stop-flag check publishes its batched
progress and the status is observed as Running again — a non-terminal
state is revisited, refuting monotonicity. -/
theorem stopping_then_running_observed :
    ((runTrace (initState 10 1)
        ([Action.register]
          ++ (List.replicate 10 [Action.beginVisit 0, Action.endVisit 0]).flatten
          ++ [Action.stopTask])).map (fun s => s.registry.map (·.status)),
     (runTrace (initState 10 1)
        ([Action.register]
          ++ (List.replicate 10 [Action.beginVisit 0, Action.endVisit 0]).flatten
          ++ [Action.stopTask, Action.publishProgress 0])).map
        (fun s => s.registry.map (·.status)))
    = (some (some Status.stopping), some (some Status.running)) := by decide

/-- Claim C3 amended: the terminal statuses (Stopped, Completed, Error) are
never exited — in a reachable terminal state no action of the task is
enabled at all — but monotonicity among non-terminal states fails:
Stopping can be followed by Running (see the counterexample). -/
theorem terminal_states_final (total n : Nat) (acts : List Action) (s : SysState)
    (snap : TaskSnapshot) (hn : 1 ≤ n)
    (h : runTrace (initState total n) acts = some s)
    (hreg : s.registry = some snap) (hterm : TerminalStatus snap.status) :
    ∀ a, step s a = none :=
  terminal_no_step (runTrace_inv (inv_initState total n hn) h) hreg hterm

/-- Witness for `terminal_states_final`: a completed task ignores stop. -/
theorem terminal_states_final_witness :
    step (⟨some ⟨Status.completed, 10, 10, completedMsg 10⟩, 0, false,
      [⟨10, none, false, true, true⟩], 10, some false, true, true⟩ : SysState)
      Action.stopTask = none :=
  terminal_states_final 10 1
    [Action.register, Action.fail 0, Action.finalizeRead, Action.finalizeWrite]
    ⟨some ⟨Status.completed, 10, 10, completedMsg 10⟩, 0, false,
      [⟨10, none, false, true, true⟩], 10, some false, true, true⟩
    ⟨Status.completed, 10, 10, completedMsg 10⟩
    (by decide) (by decide) rfl (Or.inr (Or.inl rfl)) Action.stopTask

/-- Claim C4 counterexample: the counter is captured under the lock but
published outside it, so two workers' batched publishes can land out of
order: successive snapshots show `current = 20` and then `current = 10` —
observed progress rolls back, refuting monotonicity of `current`. -/
theorem published_current_rollback :
    ((runTrace (initState 20 2)
        ([Action.register]
          ++ (List.replicate 10 [Action.beginVisit 0, Action.endVisit 0]).flatten
          ++ (List.replicate 10 [Action.beginVisit 1, Action.endVisit 1]).flatten
          ++ [Action.publishProgress 1])).map (fun s => s.registry.map (·.current)),
     (runTrace (initState 20 2)
        ([Action.register]
          ++ (List.replicate 10 [Action.beginVisit 0, Action.endVisit 0]).flatten
          ++ (List.replicate 10 [Action.beginVisit 1, Action.endVisit 1]).flatten
          ++ [Action.publishProgress 1, Action.publishProgress 0])).map
        (fun s => s.registry.map (·.current)))
    = (some (some 20), some (some 10)) := by decide

/-- Claim C4 amended: the shared iteration counter itself never decreases
along any reachable step, and every published snapshot satisfies
`current ≤ total`; but the snapshot's `current` is not monotonic across
publishes (see the counterexample). -/
theorem counter_monotone_current_bounded (total n : Nat) (acts : List Action)
    (s : SysState) (a : Action) (s' : SysState) (hn : 1 ≤ n)
    (h : runTrace (initState total n) acts = some s)
    (hstep : step s a = some s') :
    s.counter ≤ s'.counter
    ∧ ∀ snap, s'.registry = some snap → snap.current ≤ snap.total := by
  have inv' := step_inv (runTrace_inv (inv_initState total n hn) h) hstep
  refine ⟨(step_frame hstep).2.1, fun snap hsnap => ?_⟩
  have hb := inv'.regBound snap hsnap
  omega

/-- Witness for `counter_monotone_current_bounded` at the `register` step. -/
theorem counter_monotone_current_bounded_witness :
    (initState 10 1).counter
      ≤ (⟨some ⟨Status.running, 0, 10, startingMsg 1⟩, 0, false,
          [⟨10, none, false, false, false⟩], 10, none, false, true⟩ : SysState).counter
    ∧ (⟨Status.running, 0, 10, startingMsg 1⟩ : TaskSnapshot).current
        ≤ (⟨Status.running, 0, 10, startingMsg 1⟩ : TaskSnapshot).total :=
  ⟨(counter_monotone_current_bounded 10 1 [] (initState 10 1) Action.register
      ⟨some ⟨Status.running, 0, 10, startingMsg 1⟩, 0, false,
        [⟨10, none, false, false, false⟩], 10, none, false, true⟩
      (by decide) rfl (by decide)).1,
   (counter_monotone_current_bounded 10 1 [] (initState 10 1) Action.register
      ⟨some ⟨Status.running, 0, 10, startingMsg 1⟩, 0, false,
        [⟨10, none, false, false, false⟩], 10, none, false, true⟩
      (by decide) rfl (by decide)).2
      ⟨Status.running, 0, 10, startingMsg 1⟩ rfl⟩

/-- Claim C5 counterexample: worker 0's session open fails (contributing
none of its 5 iterations) and worker 1 performs its 5; with no stop, the
task ends Completed — but with `current = 10 = total` although only 5
iterations were performed (the counter), and with the message claiming all
10 visits completed, noting no partial worker failure. -/
theorem failed_worker_reported_full_completion :
    (runTrace (initState 10 2)
      ([Action.register, Action.fail 0]
        ++ (List.replicate 5 [Action.beginVisit 1, Action.endVisit 1]).flatten
        ++ [Action.exitDone 1, Action.finalizeRead, Action.finalizeWrite])).map
      (fun s => (s.registry, s.counter, s.workers.map (·.failed)))
    = some (some ⟨Status.completed, 10, 10, completedMsg 10⟩, 5, [true, false]) := by
  decide

/-- Claim C5 amended: when the stop flag is never set the finalized task is
always `Completed` (never `Error`) even if workers failed, but its
published state is `current = total` with the full-completion message —
the iterations actually performed and the worker failures are not
reflected in it. -/
theorem no_stop_completes_full_total (total n : Nat) (acts : List Action) (s : SysState)
    (hn : 1 ≤ n)
    (hns : Action.stopTask ∉ acts)
    (h : runTrace (initState total n) acts = some s)
    (hfin : s.finalized = true) :
    s.registry = some ⟨Status.completed, total, total, completedMsg total⟩ := by
  have hnsi : NoStopInv (initState total n) :=
    ⟨rfl, Or.inl rfl, fun h' => by simp [initState] at h'⟩
  have hres := (runTrace_noStopInv (inv_initState total n hn) hnsi hns h).2.2 hfin
  rw [runTrace_total h] at hres
  exact hres

/-- Witness for `no_stop_completes_full_total`: both workers fail, yet the
task reports Completed with `current = total = 10`. -/
theorem no_stop_completes_full_total_witness :
    (⟨some ⟨Status.completed, 10, 10, completedMsg 10⟩, 0, false,
      [⟨5, none, false, true, true⟩, ⟨5, none, false, true, true⟩], 10,
      some false, true, true⟩ : SysState).registry
    = some ⟨Status.completed, 10, 10, completedMsg 10⟩ :=
  no_stop_completes_full_total 10 2
    [Action.register, Action.fail 0, Action.fail 1, Action.finalizeRead, Action.finalizeWrite]
    ⟨some ⟨Status.completed, 10, 10, completedMsg 10⟩, 0, false,
      [⟨5, none, false, true, true⟩, ⟨5, none, false, true, true⟩], 10,
      some false, true, true⟩
    (by decide) (by decide) (by decide) rfl

/-- Claim C6 counterexample: a successful `start` returns its response
while the spawned `bot.run` thread has not yet executed, so the registry
has no entry and an immediate status query is a 404 NotFound — refuting
"registered before start returns". -/
theorem status_after_start_notFound :
    (startEndpoint ⟨"example.com", 10, 3⟩ 0).map (fun p => getStatus p.2)
      = Except.ok none := by decide

/-- Claim C6 amended: registration is the run thread's first action, not
part of `start`: before `register` has run the task is invisible (status
queries get NotFound) and no work has happened; from the moment it has
run, every status query finds the task. -/
theorem registration_visibility (total n : Nat) (acts : List Action) (s : SysState)
    (hn : 1 ≤ n)
    (h : runTrace (initState total n) acts = some s) :
    (s.started = false → getStatus s = none ∧ s.counter = 0)
    ∧ (s.started = true → getStatus s ≠ none) := by
  have inv := runTrace_inv (inv_initState total n hn) h
  exact ⟨fun h' => ⟨(inv.preStart h').1, (inv.preStart h').2.1⟩, inv.startReg⟩

/-- Witness for `registration_visibility` after the `register` action. -/
theorem registration_visibility_witness :
    getStatus (⟨some ⟨Status.running, 0, 10, startingMsg 1⟩, 0, false,
      [⟨10, none, false, false, false⟩], 10, none, false, true⟩ : SysState) ≠ none :=
  (registration_visibility 10 1 [Action.register]
    ⟨some ⟨Status.running, 0, 10, startingMsg 1⟩, 0, false,
      [⟨10, none, false, false, false⟩], 10, none, false, true⟩
    (by decide) (by decide)).2 rfl

end ViewerBot
